import Mathlib

/-!
Shallow embedding of the embedding batch pipeline and vector search index of
the rag-for-competitive-programming repository
(src/core/embedding.py and src/db/vector_db.py).

Modelling choices:
* A corpus row (`Page` in src/db/dataset.py) is modelled by its fields used by
  the core: the integer primary key `id` and the text `content`.  The corpus
  table is a list of pages in storage (primary-key) order with distinct ids.
* Embedding vectors are lists of rationals (`np.float32` arithmetic is modelled
  by exact rational arithmetic, as the specified properties are about the
  mathematical values).
* The external ollama embedding provider is a parameter: a function from a
  batch of contents to a list of vectors (`ollama.embed(model, input)`), and a
  single-query variant for `embed_query`.  The model name is folded into the
  provider parameter.
* SQL queries are modelled literally: `WHERE id > last_id ORDER BY id DESC
  LIMIT b` becomes filter + descending insertion sort + take.
* The `while` loop of `Embedder.embed_db` is modelled with explicit fuel
  (`fetchBatchesFuel`); a theorem shows `corpus.length + 1` fuel always
  suffices, so `fetchBatches` (with that fuel) is the loop's exact behaviour.
* The faiss `IndexIDMap(IndexFlatL2 dim)` is a list of (int64 id, vector)
  entries; `add_with_ids` checks that the number of vectors matches the number
  of ids and the dimension (faiss raises on mismatch); `search` returns the k
  nearest entries by squared L2 distance ascending, padded with (padDist, -1)
  as faiss pads when fewer than k entries exist.
-/

namespace RagCP

/-- A corpus record (`Page` ORM entity): the fields the core reads. -/
structure Page where
  id : Nat
  content : String
deriving DecidableEq

/-- An embedding vector. -/
abbrev Vec := List ℚ

/-- The external embedding provider for one fixed model:
`ollama.embed(model=m, input=batch).embeddings`. -/
abbrev Provider := List String → List Vec

/-- `BatchEmbedding` dataclass from src/core/embedding.py. -/
structure BatchEmbedding where
  embedding : List Vec
  pages : List Page
  dim : Nat
deriving DecidableEq

/-- `np.array(vs).shape[-1]`: the row length for a nonempty matrix, 0 for an
empty one. -/
def matrixDim (m : List Vec) : Nat :=
  match m with
  | [] => 0
  | v :: _ => v.length

namespace Embedder

/-- `Embedder.embed_page_batch`: embed the contents, pair the resulting matrix
with the pages, read the dimension off the matrix shape.  The source performs
no validation of the returned vector count. -/
def embedPageBatch (provider : Provider) (pageBatch : List Page) : BatchEmbedding :=
  let contentBatch := pageBatch.map (·.content)
  let embeddingMatrix := provider contentBatch
  { embedding := embeddingMatrix, pages := pageBatch, dim := matrixDim embeddingMatrix }

end Embedder

/-- Insert a page into a list kept in descending id order. -/
def insertDesc (p : Page) : List Page → List Page
  | [] => [p]
  | q :: rest => if q.id ≤ p.id then p :: q :: rest else q :: insertDesc p rest

/-- Sort pages by id descending (`ORDER BY id DESC`). -/
def sortDesc : List Page → List Page
  | [] => []
  | p :: rest => insertDesc p (sortDesc rest)

/-- The page fetch of `Embedder.embed_db`:
`select(Page).where(Page.id > last_id).order_by(Page.id.desc()).limit(b)`. -/
def fetchPage (corpus : List Page) (lastId : Nat) (b : Nat) : List Page :=
  (sortDesc (corpus.filter (fun p => decide (lastId < p.id)))).take b

/-- `pages[-1].id`: id of the last fetched page (callers guarantee nonempty). -/
def lastIdOf (pages : List Page) : Nat :=
  match pages.getLast? with
  | some p => p.id
  | none => 0

/-- The `while (pages := ...)` loop of `Embedder.embed_db`, pagination part,
with explicit fuel: returns the list of fetched page batches, or `none` if the
fuel runs out before a fetch comes back empty. -/
def fetchBatchesFuel (corpus : List Page) (b : Nat) : Nat → Nat → Option (List (List Page))
  | 0, _ => none
  | fuel + 1, lastId =>
    match fetchPage corpus lastId b with
    | [] => some []
    | p :: ps =>
      (fetchBatchesFuel corpus b fuel (lastIdOf (p :: ps))).map (fun rest => (p :: ps) :: rest)

/-- The page batches fetched by `Embedder.embed_db`, with fuel
`corpus.length + 1` (proved sufficient below). -/
def fetchBatches (corpus : List Page) (b : Nat) : List (List Page) :=
  (fetchBatchesFuel corpus b (corpus.length + 1) 0).getD []

namespace Embedder

/-- `Embedder.embed_db`: the full generator output, one `BatchEmbedding` per
fetched page batch. -/
def embedDb (provider : Provider) (corpus : List Page) (b : Nat) : List BatchEmbedding :=
  (fetchBatches corpus b).map (embedPageBatch provider)

end Embedder

/-- Distance faiss pads with when fewer than `k` entries exist (FLT_MAX). -/
def padDist : ℚ := (2 : ℚ) ^ 128

/-- Squared Euclidean distance (faiss `IndexFlatL2` metric). -/
def sqDist (u v : Vec) : ℚ :=
  ((u.zip v).map (fun p => (p.1 - p.2) * (p.1 - p.2))).sum

/-- Insert into a list kept ascending by distance (stable). -/
def insertAsc (x : ℚ × ℤ) : List (ℚ × ℤ) → List (ℚ × ℤ)
  | [] => [x]
  | y :: rest => if x.1 ≤ y.1 then x :: y :: rest else y :: insertAsc x rest

/-- Stable sort of (distance, id) pairs ascending by distance. -/
def sortAscDist : List (ℚ × ℤ) → List (ℚ × ℤ)
  | [] => []
  | x :: rest => insertAsc x (sortAscDist rest)

/-- `faiss.IndexIDMap(faiss.IndexFlatL2(dim))`: id-addressable exact-L2 index. -/
structure FaissIndex where
  dim : Nat
  entries : List (ℤ × Vec)
deriving DecidableEq

namespace FaissIndex

/-- `index.add_with_ids(vectors, ids)`: faiss requires as many ids as vectors
and vectors of the index dimension, raising otherwise; appends without
deduplication. -/
def addWithIds (idx : FaissIndex) (vecs : List Vec) (ids : List ℤ) :
    Except String FaissIndex :=
  if vecs.length = ids.length ∧ ∀ v ∈ vecs, v.length = idx.dim then
    .ok { idx with entries := idx.entries ++ ids.zip vecs }
  else
    .error "add_with_ids size mismatch"

/-- `index.search(query, k)`: distances and ids of the up-to-k nearest entries,
ascending by squared L2 distance, padded to length k with `(padDist, -1)`. -/
def knnSearch (idx : FaissIndex) (q : Vec) (k : Nat) : List ℚ × List ℤ :=
  let scored := idx.entries.map (fun e => (sqDist q e.2, e.1))
  let sorted := (sortAscDist scored).take k
  let padded := sorted ++ List.replicate (k - sorted.length) (padDist, (-1 : ℤ))
  (padded.map (·.1), padded.map (·.2))

end FaissIndex

/-- Relevance score `1 / (1 + d)` computed by `VectorDB.search`. -/
def score (d : ℚ) : ℚ := 1 / (1 + d)

/-- Build errors of `VectorDB.__init__`: the `ValueError("Empty dataset for
vector DB!")` raised on the empty probe, and errors raised by faiss during
`add_with_ids`. -/
inductive BuildError where
  | emptyDataset : BuildError
  | indexError : String → BuildError
deriving DecidableEq

/-- The state of a built `VectorDB`: its faiss index and the running count
`self._len` returned by `__len__`. -/
structure VectorDB where
  index : FaissIndex
  len : Nat
deriving DecidableEq

namespace VectorDB

/-- The loop body of `VectorDB._build_index`, consuming the generator's page
batches one by one: embed the batch (one provider call), `add_with_ids` its
matrix keyed by the page ids, increment `self._len` by the batch length.
Returns the final state (or the first index error) together with the number of
provider calls made — on an error, later batches are never embedded, matching
the lazy generator. -/
def buildLoop (provider : Provider) : VectorDB → List (List Page) →
    Except String VectorDB × Nat
  | st, [] => (.ok st, 0)
  | st, pages :: rest =>
    let batch := Embedder.embedPageBatch provider pages
    match st.index.addWithIds batch.embedding (batch.pages.map (fun p => (p.id : ℤ))) with
    | .ok idx =>
      let out := buildLoop provider { index := idx, len := st.len + batch.pages.length } rest
      (out.1, out.2 + 1)
    | .error e => (.error e, 1)

/-- `VectorDB.__init__` instrumented with the number of embedding-provider
calls it makes: probe the corpus with `select(Page).limit(1)` (the first table
row); if empty raise; otherwise embed one sample page (one provider call) to
learn the dimension, allocate the empty index, and run `_build_index` over the
`embed_db` batches. -/
def initT (corpus : List Page) (provider : Provider) (b : Nat) :
    Except BuildError VectorDB × Nat :=
  match corpus.head? with
  | none => (.error .emptyDataset, 0)
  | some samplePage =>
    let sample := Embedder.embedPageBatch provider [samplePage]
    let idx0 : FaissIndex := { dim := sample.dim, entries := [] }
    let out := buildLoop provider { index := idx0, len := 0 } (fetchBatches corpus b)
    (out.1.mapError BuildError.indexError, out.2 + 1)

/-- `VectorDB.__init__`: the resulting state (or build error). -/
def init (corpus : List Page) (provider : Provider) (b : Nat) :
    Except BuildError VectorDB :=
  (initT corpus provider b).1

/-- `VectorDB.search`: embed the query, run the k-NN search, map distances to
scores, resolve ids with `select(Page).where(Page.id.in_(ids))` (rows come
back in table order, there is no ORDER BY), and zip scores with the resolved
pages positionally.  The method assigns no attribute, so the state it runs
against is returned unchanged. -/
def search (st : VectorDB) (corpus : List Page) (embedQuery : String → Vec)
    (query : String) (topK : Nat) : List (ℚ × Page) × VectorDB :=
  let queryVector := embedQuery query
  let res := st.index.knnSearch queryVector topK
  let scores := res.1.map score
  let pages := corpus.filter (fun p => decide ((p.id : ℤ) ∈ res.2))
  (scores.zip pages, st)

end VectorDB

/-! Concrete instances used to evaluate the model at specific inputs. -/

/-- A three-document corpus with ascending ids 1, 2, 3. -/
def cA : List Page := [⟨1, "a"⟩, ⟨2, "b"⟩, ⟨3, "c"⟩]

/-- A provider embedding every content as the one-dimensional vector [0]. -/
def provZero : Provider := fun l => l.map (fun _ => [(0 : ℚ)])

/-- A provider returning no vectors at all, whatever the input batch. -/
def provEmpty : Provider := fun _ => []

/-- A query embedder returning the one-dimensional vector [10]. -/
def embedQTen : String → Vec := fun _ => [(10 : ℚ)]

/-- A two-entry index: document 1 at vector [0], document 2 at vector [10]. -/
def idxTwo : FaissIndex := { dim := 1, entries := [((1 : ℤ), [(0 : ℚ)]), ((2 : ℤ), [(10 : ℚ)])] }

/-- A built state over `idxTwo`. -/
def stTwo : VectorDB := { index := idxTwo, len := 2 }

/-- The corpus behind `idxTwo`, in table (primary-key) order. -/
def corpusTwo : List Page := [⟨1, "far"⟩, ⟨2, "near"⟩]

/-- The state `VectorDB.__init__` reaches on `cA` with `provZero` and
batch size 2: the descending-order fetch indexes ids 3, 2, then 3 again. -/
def stA : VectorDB :=
  { index := { dim := 1,
               entries := [((3 : ℤ), [(0 : ℚ)]), ((2 : ℤ), [(0 : ℚ)]), ((3 : ℤ), [(0 : ℚ)])] },
    len := 3 }

/-! ## Helper lemmas -/

theorem length_filter_mono {α : Type} {p q : α → Bool} (l : List α)
    (himp : ∀ x, q x = true → p x = true) :
    (l.filter q).length ≤ (l.filter p).length := by
  induction l with
  | nil => simp
  | cons a l ih =>
    cases hq : q a with
    | true =>
      have hp := himp a hq
      simp only [List.filter_cons, hq, hp, if_true, List.length_cons]
      omega
    | false =>
      cases hp : p a with
      | false =>
        simp only [List.filter_cons, hq, hp]
        simp only [Bool.false_eq_true, if_false]
        exact ih
      | true =>
        simp only [List.filter_cons, hq, hp, if_true]
        simp only [Bool.false_eq_true, if_false, List.length_cons]
        omega

theorem length_filter_lt {α : Type} {p q : α → Bool} (l : List α)
    (himp : ∀ x, q x = true → p x = true) (x : α) (hx : x ∈ l)
    (hpx : p x = true) (hqx : q x = false) :
    (l.filter q).length < (l.filter p).length := by
  induction l with
  | nil => cases hx
  | cons a l ih =>
    rcases List.mem_cons.mp hx with rfl | hx'
    · have hmono := length_filter_mono l himp
      simp only [List.filter_cons, hqx, hpx, if_true]
      simp only [Bool.false_eq_true, if_false, List.length_cons]
      omega
    · cases hq : q a with
      | true =>
        have hp := himp a hq
        have := ih hx'
        simp only [List.filter_cons, hq, hp, if_true, List.length_cons]
        omega
      | false =>
        cases hp : p a with
        | false =>
          simp only [List.filter_cons, hq, hp]
          simp only [Bool.false_eq_true, if_false]
          exact ih hx'
        | true =>
          have := ih hx'
          simp only [List.filter_cons, hq, hp, if_true]
          simp only [Bool.false_eq_true, if_false, List.length_cons]
          omega

theorem mem_insertDesc {x p : Page} {l : List Page} :
    x ∈ insertDesc p l ↔ x = p ∨ x ∈ l := by
  induction l with
  | nil => simp [insertDesc]
  | cons q rest ih =>
    simp only [insertDesc]
    split
    · simp [List.mem_cons]
    · simp only [List.mem_cons, ih]
      tauto

theorem mem_sortDesc {x : Page} {l : List Page} : x ∈ sortDesc l ↔ x ∈ l := by
  induction l with
  | nil => simp [sortDesc]
  | cons p rest ih => simp [sortDesc, mem_insertDesc, ih]

theorem mem_fetchPage {corpus : List Page} {lastId b : Nat} {p : Page}
    (h : p ∈ fetchPage corpus lastId b) : p ∈ corpus ∧ lastId < p.id := by
  have h1 : p ∈ sortDesc (corpus.filter (fun q => decide (lastId < q.id))) :=
    List.mem_of_mem_take h
  have h2 := List.mem_filter.mp (mem_sortDesc.mp h1)
  exact ⟨h2.1, by simpa using h2.2⟩

theorem lastIdOf_mem {pages : List Page} (h : pages ≠ []) :
    ∃ p ∈ pages, p.id = lastIdOf pages := by
  cases hL : pages.getLast? with
  | none =>
    have := @List.getLast?_isSome _ pages
    rw [hL] at this
    simp at this
    exact absurd this h
  | some p =>
    exact ⟨p, List.mem_of_getLast?_eq_some hL, by simp [lastIdOf, hL]⟩

theorem fetchBatchesFuel_isSome (corpus : List Page) (b : Nat) :
    ∀ (fuel lastId : Nat),
      (corpus.filter (fun q => decide (lastId < q.id))).length < fuel →
      (fetchBatchesFuel corpus b fuel lastId).isSome = true := by
  intro fuel
  induction fuel with
  | zero => intro lastId h; exact absurd h (Nat.not_lt_zero _)
  | succ n ih =>
    intro lastId h
    simp only [fetchBatchesFuel]
    cases hf : fetchPage corpus lastId b with
    | nil => simp
    | cons p ps =>
      obtain ⟨q, hq_mem, hq_id⟩ := @lastIdOf_mem (p :: ps) (by simp)
      have hq' : q ∈ fetchPage corpus lastId b := by rw [hf]; exact hq_mem
      have hq := mem_fetchPage hq'
      have hlid : lastId < lastIdOf (p :: ps) := hq_id ▸ hq.2
      have hlt : (corpus.filter (fun r => decide (lastIdOf (p :: ps) < r.id))).length <
          (corpus.filter (fun r => decide (lastId < r.id))).length := by
        refine length_filter_lt corpus ?_ q hq.1 ?_ ?_
        · intro x hx
          rw [decide_eq_true_eq] at hx ⊢
          omega
        · simpa using hq.2
        · rw [hq_id]
          simp
      have := ih (lastIdOf (p :: ps)) (by omega)
      simpa using this

theorem fetchBatchesFuel_pages_mem (corpus : List Page) (b : Nat) :
    ∀ (fuel lastId : Nat) (out : List (List Page)),
      fetchBatchesFuel corpus b fuel lastId = some out →
      ∀ pages ∈ out, ∀ p ∈ pages, p ∈ corpus := by
  intro fuel
  induction fuel with
  | zero => intro lastId out h; simp [fetchBatchesFuel] at h
  | succ n ih =>
    intro lastId out h pages hpag p hp
    simp only [fetchBatchesFuel] at h
    cases hf : fetchPage corpus lastId b with
    | nil =>
      rw [hf] at h
      simp only [Option.some.injEq] at h
      subst h
      cases hpag
    | cons q qs =>
      rw [hf] at h
      rw [Option.map_eq_some'] at h
      obtain ⟨rest, hrest, hout⟩ := h
      subst hout
      rcases List.mem_cons.mp hpag with rfl | hpag'
      · exact (mem_fetchPage (show p ∈ fetchPage corpus lastId b by rw [hf]; exact hp)).1
      · exact ih _ rest hrest pages hpag' p hp

theorem fetchBatches_pages_mem {corpus : List Page} {b : Nat} {pages : List Page} {p : Page}
    (hpag : pages ∈ fetchBatches corpus b) (hp : p ∈ pages) : p ∈ corpus := by
  unfold fetchBatches at hpag
  cases hF : fetchBatchesFuel corpus b (corpus.length + 1) 0 with
  | none => rw [hF] at hpag; simp at hpag
  | some out =>
    rw [hF] at hpag
    simp only [Option.getD_some] at hpag
    exact fetchBatchesFuel_pages_mem corpus b _ 0 out hF pages hpag p hp

theorem embedPageBatch_pages (provider : Provider) (pageBatch : List Page) :
    (Embedder.embedPageBatch provider pageBatch).pages = pageBatch := rfl

theorem addWithIds_ok {idx idx' : FaissIndex} {vecs : List Vec} {ids : List ℤ}
    (h : idx.addWithIds vecs ids = .ok idx') :
    idx'.entries = idx.entries ++ ids.zip vecs ∧ vecs.length = ids.length ∧
      idx'.dim = idx.dim := by
  rw [FaissIndex.addWithIds] at h
  split at h
  · rename_i hcond
    rw [Except.ok.injEq] at h
    subst h
    exact ⟨rfl, hcond.1, rfl⟩
  · cases h

theorem buildLoop_ok_len (provider : Provider) :
    ∀ (bs : List (List Page)) (st₀ st : VectorDB) (n : Nat),
      VectorDB.buildLoop provider st₀ bs = (.ok st, n) →
      st.len + st₀.index.entries.length = st₀.len + st.index.entries.length := by
  intro bs
  induction bs with
  | nil =>
    intro st₀ st n h
    simp only [VectorDB.buildLoop, Prod.mk.injEq, Except.ok.injEq] at h
    rw [h.1]
  | cons pages rest ih =>
    intro st₀ st n h
    simp only [VectorDB.buildLoop] at h
    cases haw : FaissIndex.addWithIds st₀.index (Embedder.embedPageBatch provider pages).embedding
        ((Embedder.embedPageBatch provider pages).pages.map (fun p => (p.id : ℤ))) with
    | error e =>
      rw [haw] at h
      simp at h
    | ok idx =>
      rw [haw] at h
      rw [Prod.mk.injEq] at h
      obtain ⟨h1, _⟩ := h
      have hb : VectorDB.buildLoop provider
          ⟨idx, st₀.len + (Embedder.embedPageBatch provider pages).pages.length⟩ rest
          = (.ok st, (VectorDB.buildLoop provider
              ⟨idx, st₀.len + (Embedder.embedPageBatch provider pages).pages.length⟩ rest).2) := by
        rw [← h1]
      have hih := ih _ st _ hb
      obtain ⟨hent, hlen, _⟩ := addWithIds_ok haw
      have hlen' : (Embedder.embedPageBatch provider pages).embedding.length = pages.length := by
        rw [hlen, List.length_map, embedPageBatch_pages]
      have hzip : (((Embedder.embedPageBatch provider pages).pages.map
          (fun p => (p.id : ℤ))).zip (Embedder.embedPageBatch provider pages).embedding).length
          = pages.length := by
        rw [List.length_zip, List.length_map, embedPageBatch_pages, hlen']
        exact Nat.min_self _
      rw [hent] at hih
      rw [List.length_append, hzip, embedPageBatch_pages] at hih
      simp only at hih ⊢
      omega

theorem buildLoop_entries_src (provider : Provider) :
    ∀ (bs : List (List Page)) (st₀ st : VectorDB) (n : Nat),
      VectorDB.buildLoop provider st₀ bs = (.ok st, n) →
      ∀ e ∈ st.index.entries, e ∈ st₀.index.entries ∨
        ∃ pages ∈ bs, ∃ p ∈ pages, (p.id : ℤ) = e.1 := by
  intro bs
  induction bs with
  | nil =>
    intro st₀ st n h e he
    simp only [VectorDB.buildLoop, Prod.mk.injEq, Except.ok.injEq] at h
    rw [h.1]
    exact .inl he
  | cons pages rest ih =>
    intro st₀ st n h e he
    simp only [VectorDB.buildLoop] at h
    cases haw : FaissIndex.addWithIds st₀.index (Embedder.embedPageBatch provider pages).embedding
        ((Embedder.embedPageBatch provider pages).pages.map (fun p => (p.id : ℤ))) with
    | error msg =>
      rw [haw] at h
      simp at h
    | ok idx =>
      rw [haw] at h
      rw [Prod.mk.injEq] at h
      obtain ⟨h1, _⟩ := h
      have hb : VectorDB.buildLoop provider
          ⟨idx, st₀.len + (Embedder.embedPageBatch provider pages).pages.length⟩ rest
          = (.ok st, (VectorDB.buildLoop provider
              ⟨idx, st₀.len + (Embedder.embedPageBatch provider pages).pages.length⟩ rest).2) := by
        rw [← h1]
      rcases ih _ st _ hb e he with hin | ⟨pg, hpg, p, hp, hpid⟩
      · obtain ⟨hent, _, _⟩ := addWithIds_ok haw
        simp only at hin
        rw [hent] at hin
        rcases List.mem_append.mp hin with hold | hnew
        · exact .inl hold
        · right
          obtain ⟨eid, ev⟩ := e
          have := (List.of_mem_zip hnew).1
          rw [embedPageBatch_pages] at this
          obtain ⟨p, hp, hpid⟩ := List.mem_map.mp this
          exact ⟨pages, List.mem_cons_self _ _, p, hp, hpid⟩
      · exact .inr ⟨pg, List.mem_cons_of_mem _ hpg, p, hp, hpid⟩

theorem fetchBatchesFuel_zero_batch (corpus : List Page) (lastId fuel : Nat) (h : 0 < fuel) :
    fetchBatchesFuel corpus 0 fuel lastId = some [] := by
  cases fuel with
  | zero => omega
  | succ n => simp [fetchBatchesFuel, fetchPage]

/-! ## Claim theorems -/

/-- Claim C1 (code evaluation at the failing input): the descending-order
cursor defect of `Embedder.embed_db`.  On the corpus with ids 1, 2, 3 and
`batch_size = 1` the generator yields a single batch containing only document
3 — not the ceil(3/1) = 3 ascending singleton batches covering each document
once that the claim states; with `batch_size = 2` it yields the batches
[3, 2] and [3], skipping document 1 and embedding document 3 twice. -/
theorem c1_pagination_descending_eval :
    (Embedder.embedDb provZero cA 1).map (fun u => u.pages.map (·.id)) = [[3]] ∧
    (Embedder.embedDb provZero cA 2).map (fun u => u.pages.map (·.id)) = [[3, 2], [3]] := by
  constructor <;> rfl

/-- Claim C2: for every finite corpus and every batch size the fetch-embed
loop of `Embedder.embed_db` terminates — fuel `corpus.length + 1` always
suffices for the paginating loop — and it stops exactly when a page fetch
returns zero documents; the generator's output is the finite list of embedded
batches. -/
theorem c2_embed_db_terminates (provider : Provider) (corpus : List Page) (b : Nat) :
    (fetchBatchesFuel corpus b (corpus.length + 1) 0).isSome = true ∧
    (∀ lastId, fetchPage corpus lastId b = [] →
      fetchBatchesFuel corpus b 1 lastId = some []) ∧
    Embedder.embedDb provider corpus b
      = (fetchBatches corpus b).map (Embedder.embedPageBatch provider) := by
  refine ⟨?_, ?_, rfl⟩
  · exact fetchBatchesFuel_isSome corpus b _ 0
      (Nat.lt_succ_of_le (List.length_filter_le _ _))
  · intro lastId h
    simp [fetchBatchesFuel, h]

/-- Witness for C2 at the concrete corpus `cA` with batch size 1: the loop
halts, and at a cursor past every id the very first fetch is empty and the
loop stops at once. -/
theorem c2_witness :
    (fetchBatchesFuel cA 1 (cA.length + 1) 0).isSome = true ∧
    fetchBatchesFuel cA 1 1 5 = some [] :=
  ⟨(c2_embed_db_terminates provZero cA 1).1,
   (c2_embed_db_terminates provZero cA 1).2.1 5 (by rfl)⟩

/-- Claim C3 (code evaluation at the failing input): `VectorDB.search` does
not pair scores with the documents the index returned at each rank.  With
document 1 stored at vector [0] and document 2 at vector [10], a query at
[10] makes the index return ids [2, 1] (distances [0, 100]); the SQL `IN`
lookup returns the pages in table order [1, 2], and the positional zip pairs
score 1.0 with document 1 and score 1/101 with document 2 — the reverse of
the pairing the claim states. -/
theorem c3_search_pairing_eval :
    ((stTwo.search corpusTwo embedQTen "q" 2).1.map (fun sp => (sp.1, sp.2.id))
      = [((1 : ℚ), 1), ((1 / 101 : ℚ), 2)]) ∧
    (stTwo.index.knnSearch (embedQTen "q") 2).2 = [2, 1] := by
  constructor <;>
    norm_num [VectorDB.search, FaissIndex.knnSearch, sortAscDist, insertAsc, sqDist,
      score, stTwo, idxTwo, corpusTwo, embedQTen, List.filter]

/-- Claim C4 counterexample: `Embedder.embed_page_batch` performs no vector
count validation.  With a provider returning zero vectors for a one-document
batch, it returns (without any error) a Batch Embedding Unit with one page
and a zero-row matrix — refuting "it never returns a Batch Embedding Unit
whose matrix row count differs from the number of input documents". -/
theorem c4_counterexample :
    (Embedder.embedPageBatch provEmpty [⟨1, "a"⟩]).pages.length = 1 ∧
    (Embedder.embedPageBatch provEmpty [⟨1, "a"⟩]).embedding.length = 0 :=
  ⟨rfl, rfl⟩

/-- Claim C4 as amended: `Embedder.embed_page_batch` performs no count
validation and raises no ProviderError of its own: it returns a Batch
Embedding Unit whose pages are exactly the input documents and whose matrix
is exactly whatever vectors the provider returned, however many that is. -/
theorem c4_no_count_validation (provider : Provider) (pageBatch : List Page) :
    (Embedder.embedPageBatch provider pageBatch).pages = pageBatch ∧
    (Embedder.embedPageBatch provider pageBatch).embedding
      = provider (pageBatch.map (·.content)) :=
  ⟨rfl, rfl⟩

/-- Claim C5: building against an empty corpus fails with the empty-dataset
error (the `ValueError` of `VectorDB.__init__`, the spec's EmptyCorpusError),
determined by the `select(Page).limit(1)` existence probe with zero
embedding-provider calls made, and no Vector Index state is produced. -/
theorem c5_empty_corpus (provider : Provider) (b : Nat) :
    VectorDB.initT [] provider b = (.error .emptyDataset, 0) := rfl

/-- Claim C6: the relevance score `1 / (1 + d)` computed by `VectorDB.search`
is strictly decreasing in the distance, lies in (0, 1] for every finite
non-negative distance, and equals 1 exactly for distance 0. -/
theorem c6_score_properties (d₁ d₂ : ℚ) (h₁ : 0 ≤ d₁) (h₂ : 0 ≤ d₂) :
    score d₁ = 1 / (1 + d₁) ∧ (d₁ < d₂ → score d₂ < score d₁) ∧
    0 < score d₁ ∧ score d₁ ≤ 1 ∧ (score d₁ = 1 ↔ d₁ = 0) := by
  have hp : (0 : ℚ) < 1 + d₁ := by linarith
  refine ⟨rfl, ?_, ?_, ?_, ?_⟩
  · intro hlt
    simp only [score]
    exact one_div_lt_one_div_of_lt hp (by linarith)
  · exact div_pos one_pos hp
  · rw [score, div_le_one hp]
    linarith
  · rw [score, div_eq_one_iff_eq (ne_of_gt hp)]
    constructor
    · intro h
      linarith
    · intro h
      rw [h]
      norm_num

/-- Witness for C6 at distances 0 and 1. -/
theorem c6_witness :
    score 0 = 1 / (1 + 0) ∧ ((0 : ℚ) < 1 → score 1 < score 0) ∧
    0 < score 0 ∧ score 0 ≤ 1 ∧ (score 0 = 1 ↔ (0 : ℚ) = 0) :=
  c6_score_properties 0 1 (by norm_num) (by norm_num)

/-- Claim C7: for every build that completes without error, `size()`
(`self._len`) equals the number of (id, vector) entries actually inserted
into the faiss index by the `add_with_ids` calls of `_build_index`. -/
theorem c7_len_eq_inserted (corpus : List Page) (provider : Provider) (b : Nat)
    (st : VectorDB) (h : VectorDB.init corpus provider b = .ok st) :
    st.len = st.index.entries.length := by
  cases corpus with
  | nil => simp [VectorDB.init, VectorDB.initT] at h
  | cons c rest =>
    have h' : ((VectorDB.buildLoop provider
        ⟨⟨(Embedder.embedPageBatch provider [c]).dim, []⟩, 0⟩
        (fetchBatches (c :: rest) b)).1).mapError BuildError.indexError = .ok st := h
    cases hbl : (VectorDB.buildLoop provider
        ⟨⟨(Embedder.embedPageBatch provider [c]).dim, []⟩, 0⟩
        (fetchBatches (c :: rest) b)).1 with
    | error e =>
      rw [hbl] at h'
      simp [Except.mapError] at h'
    | ok st' =>
      rw [hbl] at h'
      simp only [Except.mapError, Except.ok.injEq] at h'
      subst h'
      have hpair : VectorDB.buildLoop provider
          ⟨⟨(Embedder.embedPageBatch provider [c]).dim, []⟩, 0⟩ (fetchBatches (c :: rest) b)
          = (.ok st', (VectorDB.buildLoop provider
              ⟨⟨(Embedder.embedPageBatch provider [c]).dim, []⟩, 0⟩
              (fetchBatches (c :: rest) b)).2) := by
        rw [← hbl]
      have := buildLoop_ok_len provider (fetchBatches (c :: rest) b) _ st' _ hpair
      simpa using this

/-- Witness for C7: the concrete build over `cA` with batch size 2 completes
with state `stA`, whose running count 3 equals its 3 inserted entries. -/
theorem c7_witness :
    VectorDB.init cA provZero 2 = .ok stA ∧ stA.len = stA.index.entries.length :=
  ⟨rfl, c7_len_eq_inserted cA provZero 2 stA rfl⟩

/-- Claim C8: after a completed build, every identifier stored in the Vector
Index is the identifier of a document of the build-time corpus, and that
document was embedded in some Batch Embedding Unit produced by the Lazy
Corpus Embedder — the index never stores an identifier it has not embedded. -/
theorem c8_index_ids_from_corpus (corpus : List Page) (provider : Provider)
    (b : Nat) (st : VectorDB) (h : VectorDB.init corpus provider b = .ok st) :
    ∀ e ∈ st.index.entries, ∃ p ∈ corpus, (p.id : ℤ) = e.1 ∧
      ∃ u ∈ Embedder.embedDb provider corpus b, p ∈ u.pages := by
  cases corpus with
  | nil => simp [VectorDB.init, VectorDB.initT] at h
  | cons c rest =>
    have h' : ((VectorDB.buildLoop provider
        ⟨⟨(Embedder.embedPageBatch provider [c]).dim, []⟩, 0⟩
        (fetchBatches (c :: rest) b)).1).mapError BuildError.indexError = .ok st := h
    cases hbl : (VectorDB.buildLoop provider
        ⟨⟨(Embedder.embedPageBatch provider [c]).dim, []⟩, 0⟩
        (fetchBatches (c :: rest) b)).1 with
    | error e =>
      rw [hbl] at h'
      simp [Except.mapError] at h'
    | ok st' =>
      rw [hbl] at h'
      simp only [Except.mapError, Except.ok.injEq] at h'
      subst h'
      have hpair : VectorDB.buildLoop provider
          ⟨⟨(Embedder.embedPageBatch provider [c]).dim, []⟩, 0⟩ (fetchBatches (c :: rest) b)
          = (.ok st', (VectorDB.buildLoop provider
              ⟨⟨(Embedder.embedPageBatch provider [c]).dim, []⟩, 0⟩
              (fetchBatches (c :: rest) b)).2) := by
        rw [← hbl]
      intro e he
      rcases buildLoop_entries_src provider (fetchBatches (c :: rest) b) _ st' _ hpair e he with
        hin | ⟨pages, hpg, p, hp, hpid⟩
      · simp at hin
      · refine ⟨p, fetchBatches_pages_mem hpg hp, hpid,
          Embedder.embedPageBatch provider pages, ?_, ?_⟩
        · simp only [Embedder.embedDb]
          exact List.mem_map_of_mem _ hpg
        · rw [embedPageBatch_pages]
          exact hp

/-- Witness for C8: in the concrete build over `cA`, the entry with id 3 of
`stA` traces back to document 3 of the corpus and to a produced batch. -/
theorem c8_witness :
    ∃ p ∈ cA, (p.id : ℤ) = ((3 : ℤ), ([(0 : ℚ)] : Vec)).1 ∧
      ∃ u ∈ Embedder.embedDb provZero cA 2, p ∈ u.pages :=
  c8_index_ids_from_corpus cA provZero 2 stA rfl ((3 : ℤ), [(0 : ℚ)]) (by decide)

/-- Claim C9: `VectorDB.search` is read-only: it returns the state it ran
against unchanged — same index contents, same `size()` — performing no
insertion, deletion or update. -/
theorem c9_search_readonly (st : VectorDB) (corpus : List Page)
    (embedQuery : String → Vec) (query : String) (topK : Nat) :
    (st.search corpus embedQuery query topK).2 = st ∧
    (st.search corpus embedQuery query topK).2.index = st.index ∧
    (st.search corpus embedQuery query topK).2.len = st.len :=
  ⟨rfl, rfl, rfl⟩

/-- Claim C10: on a non-empty corpus with batch size 0, construction succeeds
without raising and without looping: the first `LIMIT 0` fetch returns zero
documents, the build loop inserts nothing, and the resulting state has
`size() = 0` and an empty index despite the corpus being non-empty. -/
theorem c10_zero_batch_size (corpus : List Page) (provider : Provider)
    (h : corpus ≠ []) :
    ∃ st, VectorDB.init corpus provider 0 = .ok st ∧ st.len = 0 ∧
      st.index.entries = [] := by
  obtain ⟨c, rest, rfl⟩ := List.exists_cons_of_ne_nil h
  refine ⟨⟨⟨(Embedder.embedPageBatch provider [c]).dim, []⟩, 0⟩, ?_, rfl, rfl⟩
  have hfb : fetchBatches (c :: rest) 0 = [] := by
    unfold fetchBatches
    rw [fetchBatchesFuel_zero_batch _ _ _ (Nat.succ_pos _)]
    rfl
  show ((VectorDB.buildLoop provider
      ⟨⟨(Embedder.embedPageBatch provider [c]).dim, []⟩, 0⟩
      (fetchBatches (c :: rest) 0)).1).mapError BuildError.indexError = _
  rw [hfb]
  rfl

/-- Witness for C10 at the one-document corpus. -/
theorem c10_witness :
    ∃ st, VectorDB.init [⟨1, "a"⟩] provZero 0 = .ok st ∧ st.len = 0 ∧
      st.index.entries = [] :=
  c10_zero_batch_size [⟨1, "a"⟩] provZero (by simp)

end RagCP
